import Mathlib

/-!
Verification of the merge engine in
`Aarush Data analysis/Data fixing (merging events)/MergeTest/Analyzers/merger.py`.

The script merges two SQLite databases table by table with a
priority-wins-unless-null policy:

- `get_primary_keys(conn, table)` runs `PRAGMA table_info(table)` and keeps
  the name (column 1 of each pragma row) of every row whose `pk` field
  (column 5) equals 1;
- `merge_tables_by_key(df_priority, df_fallback, primary_keys)` sets the key
  columns as index on both pandas DataFrames and computes
  `df_priority.combine_first(df_fallback).reset_index()`;
- `merge_databases(priority, fallback, output)` validates the two source
  paths, opens three sqlite3 connections, enumerates the tables of the
  priority database, and per table: loads both row sets, skips on a column-set
  mismatch, resolves primary keys (with a special case for a table whose
  lowercased name is "matches"), merges, and writes the result with
  `to_sql(..., if_exists=replace)`; the whole per-table body is wrapped in
  `try/except Exception`, and the three `close()` calls run after the loop.

We embed rows as association lists from column name to a nullable value
(`none` models SQL NULL / pandas NaN), and model the pandas calls by their
documented semantics: `combine_first` produces the union of the two row
indexes (`pandas.Index.union`, which both deduplicates and sorts ascending),
and fills each null field of the priority frame from the fallback frame.
-/

/-- A cell value: `none` models SQL NULL / pandas NaN, `some n` a scalar. -/
abbrev Value := Option Int

/-- A row is an association list from column name to value, like a pandas
row viewed as a mapping. -/
abbrev Row := List (String × Value)

/-- Value of a row at a column; an absent column reads as null, matching
how `combine_first` treats a column missing on one side. -/
def getVal (r : Row) (c : String) : Value :=
  (r.lookup c).getD none

/-- The merge-key tuple of a row: its values at the key columns, in the
given key-column order (the tuple `set_index` would use). -/
def keyOf (ks : List String) (r : Row) : List Value :=
  ks.map (getVal r)

/-- Ordering of scalar cells used by `pandas.Index.union` when it sorts the
union of the two indexes: null sorts before any scalar, scalars by value. -/
def valLe : Value → Value → Bool
  | none, _ => true
  | some _, none => false
  | some a, some b => a ≤ b

/-- Lexicographic ordering on merge-key tuples, over the key columns in
their given order. -/
def keyLe : List Value → List Value → Bool
  | [], _ => true
  | _ :: _, [] => false
  | a :: as, b :: bs => if a = b then keyLe as bs else valLe a b

theorem valLe_total (a b : Value) : valLe a b = true ∨ valLe b a = true := by
  cases a <;> cases b <;> simp [valLe] <;> omega

theorem valLe_antisymm {a b : Value} (hab : valLe a b = true)
    (hba : valLe b a = true) : a = b := by
  cases a <;> cases b <;> simp_all [valLe] <;> omega

theorem valLe_trans {a b c : Value} (hab : valLe a b = true)
    (hbc : valLe b c = true) : valLe a c = true := by
  cases a <;> cases b <;> cases c <;> simp_all [valLe] <;> omega

theorem keyLe_total : ∀ x y : List Value, keyLe x y = true ∨ keyLe y x = true
  | [], _ => by simp [keyLe]
  | _ :: _, [] => by simp [keyLe]
  | a :: as, b :: bs => by
    by_cases hab : a = b
    · subst hab
      simpa [keyLe] using keyLe_total as bs
    · have hba : ¬ b = a := fun h => hab h.symm
      simpa [keyLe, hab, hba] using valLe_total a b

theorem keyLe_trans :
    ∀ {x y z : List Value}, keyLe x y = true → keyLe y z = true →
      keyLe x z = true
  | [], _, _, _, _ => by simp [keyLe]
  | _ :: _, [], _, hxy, _ => by simp [keyLe] at hxy
  | _ :: _, _ :: _, [], _, hyz => by simp [keyLe] at hyz
  | a :: as, b :: bs, c :: cs, hxy, hyz => by
    by_cases hab : a = b <;> by_cases hbc : b = c
    · subst hab; subst hbc
      simp only [keyLe, if_pos rfl] at hxy hyz ⊢
      exact keyLe_trans hxy hyz
    · subst hab
      simp only [keyLe, if_pos rfl, if_neg hbc] at hyz ⊢
      exact hyz
    · subst hbc
      simp only [keyLe, if_pos rfl, if_neg hab] at hxy ⊢
      exact hxy
    · simp only [keyLe, if_neg hab, if_neg hbc] at hxy hyz
      by_cases hac : a = c
      · subst hac
        exact absurd (valLe_antisymm hxy hyz) hab
      · simpa [keyLe, if_neg hac] using valLe_trans hxy hyz

/-- The ordering relation on merge-key tuples, as a Prop. -/
def KeyLeR (x y : List Value) : Prop := keyLe x y = true

instance : DecidableRel KeyLeR := fun x y => by
  unfold KeyLeR; infer_instance

instance : IsTotal (List Value) KeyLeR := ⟨keyLe_total⟩

instance : IsTrans (List Value) KeyLeR := ⟨fun _ _ _ => keyLe_trans⟩

/-- The sorted, deduplicated union of the two key sets: the model of
`pandas.Index.union` on the two row indexes built by `set_index`. -/
def unionKeys (ks : List String) (prio fall : List Row) : List (List Value) :=
  List.insertionSort KeyLeR ((prio.map (keyOf ks) ++ fall.map (keyOf ks)).dedup)

/-- The row of the input list whose merge-key tuple is `k`, if any (for
key-unique inputs this is the unique such row). -/
def lookupRow (ks : List String) (rows : List Row) (k : List Value) :
    Option Row :=
  rows.find? (fun r => decide (keyOf ks r = k))

/-- The merged row that `combine_first` produces for key `k`, over columns
`cols`: where both sides have a row, each priority field stands unless it is
null, in which case the fallback field fills it; where only one side has a
row, the other side contributes only nulls, so that row's fields stand. -/
def mergedRowFor (cols ks : List String) (prio fall : List Row)
    (k : List Value) : Row :=
  match lookupRow ks prio k, lookupRow ks fall k with
  | some p, some f => cols.map (fun c => (c, (getVal p c).or (getVal f c)))
  | some p, none => cols.map (fun c => (c, getVal p c))
  | none, some f => cols.map (fun c => (c, getVal f c))
  | none, none => cols.map (fun c => (c, none))

/-- Embedding of `merge_tables_by_key(df_priority, df_fallback, primary_keys)`:
`set_index` keys both frames by the key columns, `combine_first` aligns on
the sorted union of the two key indexes and fills nulls of the priority frame
from the fallback frame, `reset_index` turns the key back into columns.
This function covers the domain of the TableMerger contract, key columns
present in both frames; outside it `set_index` raises KeyError instead of
returning, and that raise is modelled where the script catches it, at the
call site inside the per-table loop (see `processTable`). -/
def merge_tables_by_key (cols ks : List String) (prio fall : List Row) :
    List Row :=
  (unionKeys ks prio fall).map (mergedRowFor cols ks prio fall)

theorem getVal_build (cols : List String) (v : String → Value) (c : String)
    (hc : c ∈ cols) : getVal (cols.map (fun c => (c, v c))) c = v c := by
  induction cols with
  | nil => cases hc
  | cons d rest ih =>
    by_cases hdc : c = d
    · subst hdc
      simp [getVal, List.lookup]
    · have : c ∈ rest := by
        rcases List.mem_cons.mp hc with h | h
        · exact absurd h hdc
        · exact h
      have hbeq : (c == d) = false := by
        simpa [beq_iff_eq] using hdc
      simpa [getVal, List.lookup, hbeq] using ih this

theorem keyOf_build (cols ks : List String) (v : String → Value)
    (hks : ∀ c ∈ ks, c ∈ cols) :
    keyOf ks (cols.map (fun c => (c, v c))) = ks.map v := by
  induction ks with
  | nil => rfl
  | cons a rest ih =>
    have ha : a ∈ cols := hks a (List.mem_cons_self a rest)
    have hrest : ∀ c ∈ rest, c ∈ cols := fun c hc =>
      hks c (List.mem_cons_of_mem a hc)
    simp [keyOf] at ih ⊢
    exact ⟨getVal_build cols v a ha, ih hrest⟩

theorem map_or_eq (ks : List String) (p f : String → Value) (k : List Value)
    (hp : ks.map p = k) (hf : ks.map f = k) :
    ks.map (fun c => (p c).or (f c)) = k := by
  induction ks generalizing k with
  | nil => simpa using hp
  | cons a rest ih =>
    cases k with
    | nil => simp at hp
    | cons b bs =>
      simp only [List.map_cons, List.cons.injEq] at hp hf ⊢
      refine ⟨?_, ih bs hp.2 hf.2⟩
      rw [hp.1, hf.1]
      cases b <;> rfl

theorem lookupRow_key (ks : List String) (rows : List Row) (k : List Value)
    (r : Row) (h : lookupRow ks rows k = some r) : keyOf ks r = k := by
  have := List.find?_some h
  simpa using this

theorem lookupRow_isSome (ks : List String) (rows : List Row) (k : List Value)
    (hk : k ∈ rows.map (keyOf ks)) : lookupRow ks rows k ≠ none := by
  intro hnone
  rcases List.mem_map.mp hk with ⟨r, hr, hkey⟩
  have := List.find?_eq_none.mp hnone r hr
  simp [hkey] at this

theorem mem_unionKeys (ks : List String) (prio fall : List Row)
    (k : List Value) :
    k ∈ unionKeys ks prio fall
      ↔ (k ∈ prio.map (keyOf ks) ∨ k ∈ fall.map (keyOf ks)) := by
  unfold unionKeys
  rw [List.mem_insertionSort, List.mem_dedup, List.mem_append]

theorem keyOf_mergedRowFor (cols ks : List String) (prio fall : List Row)
    (k : List Value) (hks : ∀ c ∈ ks, c ∈ cols)
    (hk : k ∈ prio.map (keyOf ks) ∨ k ∈ fall.map (keyOf ks)) :
    keyOf ks (mergedRowFor cols ks prio fall k) = k := by
  unfold mergedRowFor
  rcases hp : lookupRow ks prio k with _ | p <;>
    rcases hf : lookupRow ks fall k with _ | f
  · rcases hk with hk | hk
    · exact absurd hp (lookupRow_isSome ks prio k hk)
    · exact absurd hf (lookupRow_isSome ks fall k hk)
  · have hkf : keyOf ks f = k := lookupRow_key ks fall k f hf
    rw [keyOf_build cols ks _ hks]
    exact hkf
  · have hkp : keyOf ks p = k := lookupRow_key ks prio k p hp
    rw [keyOf_build cols ks _ hks]
    exact hkp
  · have hkp : keyOf ks p = k := lookupRow_key ks prio k p hp
    have hkf : keyOf ks f = k := lookupRow_key ks fall k f hf
    rw [keyOf_build cols ks _ hks]
    exact map_or_eq ks _ _ k hkp hkf

theorem map_keyOf_merge (cols ks : List String) (prio fall : List Row)
    (hks : ∀ c ∈ ks, c ∈ cols) :
    (merge_tables_by_key cols ks prio fall).map (keyOf ks)
      = unionKeys ks prio fall := by
  unfold merge_tables_by_key
  rw [List.map_map]
  have : ∀ k ∈ unionKeys ks prio fall,
      (keyOf ks ∘ mergedRowFor cols ks prio fall) k = id k := by
    intro k hk
    exact keyOf_mergedRowFor cols ks prio fall k hks
      ((mem_unionKeys ks prio fall k).mp hk)
  rw [List.map_congr_left this, List.map_id]

theorem unionKeys_nodup (ks : List String) (prio fall : List Row) :
    (unionKeys ks prio fall).Nodup := by
  unfold unionKeys
  exact ((List.perm_insertionSort KeyLeR _).nodup_iff).mpr (List.nodup_dedup _)

/-- C1: for input row sets sharing a column set and a non-empty key-column
list, the merged row for each key in the union of the two key sets is built
field-wise: with the key on both sides, each output field equals the priority
field unless that field is null, in which case it equals the fallback field;
with the key only in fallback, the output row equals the fallback row
(field-wise over the shared columns); with the key only in priority, the
output row equals the priority row, nulls included. -/
theorem merge_fieldwise (cols ks : List String) (prio fall : List Row)
    (k : List Value) (hne : ks ≠ [])
    (hk : k ∈ prio.map (keyOf ks) ∨ k ∈ fall.map (keyOf ks)) :
    mergedRowFor cols ks prio fall k ∈ merge_tables_by_key cols ks prio fall
    ∧ (∀ p f, lookupRow ks prio k = some p → lookupRow ks fall k = some f →
        ∀ c ∈ cols, getVal (mergedRowFor cols ks prio fall k) c
          = if getVal p c = none then getVal f c else getVal p c)
    ∧ (∀ f, lookupRow ks prio k = none → lookupRow ks fall k = some f →
        ∀ c ∈ cols, getVal (mergedRowFor cols ks prio fall k) c = getVal f c)
    ∧ (∀ p, lookupRow ks prio k = some p → lookupRow ks fall k = none →
        ∀ c ∈ cols, getVal (mergedRowFor cols ks prio fall k) c
          = getVal p c) := by
  refine ⟨?_, ?_, ?_, ?_⟩
  · exact List.mem_map_of_mem _ ((mem_unionKeys ks prio fall k).mpr hk)
  · intro p f hp hf c hc
    unfold mergedRowFor
    rw [hp, hf]
    rw [getVal_build cols _ c hc]
    cases getVal p c <;> simp [Option.or]
  · intro f hp hf c hc
    unfold mergedRowFor
    rw [hp, hf]
    exact getVal_build cols _ c hc
  · intro p hp hf c hc
    unfold mergedRowFor
    rw [hp, hf]
    exact getVal_build cols _ c hc

/-- C2: for key-unique inputs over a shared column set and a non-empty key
list contained in the columns, the output has exactly one row per distinct
key of the union of the two key sets: its length is the cardinality of that
union, its key list has no duplicate, and a key appears in the output exactly
when it appears in one of the inputs. -/
theorem merge_row_count (cols ks : List String) (prio fall : List Row)
    (hne : ks ≠ []) (hks : ∀ c ∈ ks, c ∈ cols)
    (hpu : (prio.map (keyOf ks)).Nodup) (hfu : (fall.map (keyOf ks)).Nodup) :
    (merge_tables_by_key cols ks prio fall).length
      = ((prio.map (keyOf ks)).toFinset ∪ (fall.map (keyOf ks)).toFinset).card
    ∧ ((merge_tables_by_key cols ks prio fall).map (keyOf ks)).Nodup
    ∧ ∀ k, k ∈ (merge_tables_by_key cols ks prio fall).map (keyOf ks)
        ↔ (k ∈ prio.map (keyOf ks) ∨ k ∈ fall.map (keyOf ks)) := by
  have hmap := map_keyOf_merge cols ks prio fall hks
  refine ⟨?_, ?_, ?_⟩
  · have hlen : (merge_tables_by_key cols ks prio fall).length
        = (unionKeys ks prio fall).length := by
      calc (merge_tables_by_key cols ks prio fall).length
          = ((merge_tables_by_key cols ks prio fall).map (keyOf ks)).length :=
            (List.length_map _ _).symm
        _ = (unionKeys ks prio fall).length := by rw [hmap]
    rw [hlen]
    have hperm : (unionKeys ks prio fall).length
        = ((prio.map (keyOf ks) ++ fall.map (keyOf ks)).dedup).length :=
      (List.perm_insertionSort KeyLeR _).length_eq
    rw [hperm, ← List.card_toFinset, List.toFinset_append]
  · rw [hmap]
    exact unionKeys_nodup ks prio fall
  · intro k
    rw [hmap]
    exact mem_unionKeys ks prio fall k

/-- C8: the merged rows come out ordered by ascending merge-key tuple,
lexicographic over the key columns in their given order, for key-unique
inputs whose key columns lie in the shared column set. -/
theorem merge_sorted (cols ks : List String) (prio fall : List Row)
    (hne : ks ≠ []) (hks : ∀ c ∈ ks, c ∈ cols)
    (hpu : (prio.map (keyOf ks)).Nodup) (hfu : (fall.map (keyOf ks)).Nodup) :
    List.Sorted KeyLeR ((merge_tables_by_key cols ks prio fall).map (keyOf ks))
    ∧ ((merge_tables_by_key cols ks prio fall).map (keyOf ks)).Nodup := by
  rw [map_keyOf_merge cols ks prio fall hks]
  exact ⟨List.sorted_insertionSort KeyLeR _, unionKeys_nodup ks prio fall⟩

/-- Columns of the users scenario of the spec (section 8). -/
def usersCols : List String := ["id", "name", "email"]

/-- Priority rows of the users scenario; scalars stand in for the strings. -/
def usersPrio : List Row :=
  [[("id", some 1), ("name", some 100), ("email", none)]]

/-- Fallback rows of the users scenario. -/
def usersFall : List Row :=
  [[("id", some 1), ("name", some 100), ("email", some 55)],
   [("id", some 2), ("name", some 200), ("email", some 56)]]

theorem merge_fieldwise_witness :
    mergedRowFor usersCols ["id"] usersPrio usersFall [some 1]
      ∈ merge_tables_by_key usersCols ["id"] usersPrio usersFall
    ∧ getVal (mergedRowFor usersCols ["id"] usersPrio usersFall [some 1])
          "email"
        = if getVal [("id", some 1), ("name", some 100), ("email", none)]
              "email" = none then
            getVal [("id", some 1), ("name", some 100), ("email", some 55)]
              "email"
          else
            getVal [("id", some 1), ("name", some 100), ("email", none)]
              "email" :=
  ⟨(merge_fieldwise usersCols ["id"] usersPrio usersFall [some 1]
      (by decide) (Or.inl (by decide))).1,
   (merge_fieldwise usersCols ["id"] usersPrio usersFall [some 1]
      (by decide) (Or.inl (by decide))).2.1
     [("id", some 1), ("name", some 100), ("email", none)]
     [("id", some 1), ("name", some 100), ("email", some 55)]
     (by decide) (by decide) "email" (by decide)⟩

theorem merge_row_count_witness :
    (merge_tables_by_key usersCols ["id"] usersPrio usersFall).length
      = ((usersPrio.map (keyOf ["id"])).toFinset
          ∪ (usersFall.map (keyOf ["id"])).toFinset).card
    ∧ ((merge_tables_by_key usersCols ["id"] usersPrio usersFall).map
        (keyOf ["id"])).Nodup :=
  ⟨(merge_row_count usersCols ["id"] usersPrio usersFall
      (by decide) (by decide) (by decide) (by decide)).1,
   (merge_row_count usersCols ["id"] usersPrio usersFall
      (by decide) (by decide) (by decide) (by decide)).2.1⟩

theorem merge_sorted_witness :
    List.Sorted KeyLeR
      ((merge_tables_by_key usersCols ["id"] usersPrio usersFall).map
        (keyOf ["id"]))
    ∧ ((merge_tables_by_key usersCols ["id"] usersPrio usersFall).map
        (keyOf ["id"])).Nodup :=
  merge_sorted usersCols ["id"] usersPrio usersFall
    (by decide) (by decide) (by decide) (by decide)

/-- One row of the `PRAGMA table_info(table)` output, reduced to the two
fields the script reads: `name` is pragma column 1, `pk` is pragma column 5.
SQLite documents `pk` as 0 for a column that is not part of the primary key,
and otherwise the 1-based index of the column within the primary key. -/
structure ColumnInfo where
  name : String
  pk : Nat
deriving DecidableEq, Repr

/-- Embedding of `get_primary_keys(conn, table_name)`: keep the name of every
pragma row whose `pk` field equals 1 (the literal test the code performs). -/
def get_primary_keys (schema : List ColumnInfo) : List String :=
  (schema.filter (fun ci => ci.pk == 1)).map (fun ci => ci.name)

/-- What the spec asks of `primaryKeysOf`: every column flagged as primary
key (pragma `pk` field non-zero), in the schema's own ordering. -/
def primaryKeysOfSpec (schema : List ColumnInfo) : List String :=
  (schema.filter (fun ci => !(ci.pk == 0))).map (fun ci => ci.name)

/-- C3 fails on the code: for a composite primary key (key, team_key) the
pragma reports pk = 1 for the first key column and pk = 2 for the second, so
the filter pk == 1 returns only the first key column, while the spec demands
all of them. On schemas whose primary key has at most one column the two
agree. -/
theorem get_primary_keys_composite :
    get_primary_keys [⟨"key", 1⟩, ⟨"team_key", 2⟩, ⟨"score", 0⟩] = ["key"]
    ∧ primaryKeysOfSpec [⟨"key", 1⟩, ⟨"team_key", 2⟩, ⟨"score", 0⟩]
        = ["key", "team_key"]
    ∧ get_primary_keys [⟨"key", 1⟩, ⟨"team_key", 2⟩, ⟨"score", 0⟩]
        ≠ primaryKeysOfSpec [⟨"key", 1⟩, ⟨"team_key", 2⟩, ⟨"score", 0⟩] := by
  decide

/-- Python str.lower on the ASCII range, the case the table names of this
database exercise: uppercase ASCII letters shift to lowercase, any other
character stands. -/
def pyLowerChar (c : Char) : Char :=
  if 'A' ≤ c ∧ c ≤ 'Z' then Char.ofNat (c.toNat + 32) else c

/-- Lowercasing of a table name, modelling table.lower() in the script,
written over the character list of the string. -/
def pyLower (s : String) : String :=
  ⟨s.data.map pyLowerChar⟩

/-- A loaded table as pandas read_sql returns it: column list plus rows. -/
structure DataFrame where
  cols : List String
  rows : List Row
deriving DecidableEq, Repr

/-- The world merge_databases runs against. Capabilities that can raise in
Python are Except-valued: listTables models the sqlite_master query the code
runs before the loop (outside any try block), readPriority and readFallback
model the two per-table read_sql calls, tableInfo gives the PRAGMA rows of a
table on the priority side, and writeFault injects a to_sql failure. -/
structure Env where
  priorityExists : Bool
  fallbackExists : Bool
  listTables : Except String (List String)
  readPriority : String → Except String DataFrame
  readFallback : String → Except String DataFrame
  tableInfo : String → List ColumnInfo
  writeFault : String → Option String

/-- Outcome of one pass of the per-table loop body, the four situations the
script reports: a successful merge with the written rows, a schema-mismatch
skip, a missing-primary-key skip, or a caught exception. -/
inductive TableOutcome where
  | merged (rows : List Row)
  | schemaMismatch
  | missingKey
  | error (msg : String)
deriving DecidableEq, Repr

/-- Key resolution of merge_databases: get_primary_keys on the priority
schema; when that is empty, a table whose lowercased name is "matches" gets
the hard-coded keys ["key", "team_key"], any other table is skipped. -/
def resolveKeys (env : Env) (t : String) : Option (List String) :=
  let pks := get_primary_keys (env.tableInfo t)
  if pks.isEmpty then
    if pyLower t = "matches" then some ["key", "team_key"] else none
  else some pks

/-- One pass of the try-wrapped loop body of merge_databases: load both row
sets (a raise becomes a caught error), skip on differing column-name sets
(compared as sets), resolve keys (skip when none), merge, and write (a raise
during the write also becomes a caught error). One merge step itself can
raise: set_index inside merge_tables_by_key throws KeyError when a resolved
key column is not among the table's columns — reachable only through the
hard-coded ["key", "team_key"] fallback, since declared primary keys are
table columns — and the per-table except turns that into a caught error
before anything is written. -/
def processTable (env : Env) (t : String) : TableOutcome :=
  match env.readPriority t with
  | .error e => .error e
  | .ok dfp =>
    match env.readFallback t with
    | .error e => .error e
    | .ok dff =>
      if dfp.cols.toFinset ≠ dff.cols.toFinset then .schemaMismatch
      else
        match resolveKeys env t with
        | none => .missingKey
        | some pks =>
          if ∀ c ∈ pks, c ∈ dfp.cols then
            match env.writeFault t with
            | some e => .error e
            | none =>
              .merged (merge_tables_by_key dfp.cols pks dfp.rows dff.rows)
          else .error "KeyError"

/-- Writing a merged table with to_sql(..., if_exists=replace): any prior
content under that name goes away, the new rows take its place. -/
def writeTable (out : List (String × List Row)) (t : String)
    (rows : List Row) : List (String × List Row) :=
  out.filter (fun p => decide (p.1 ≠ t)) ++ [(t, rows)]

/-- The for loop of merge_databases over the enumerated table names,
threading the output database state and collecting one outcome per table. -/
def runTables (env : Env) : List String → List (String × List Row) →
    List (String × TableOutcome) × List (String × List Row)
  | [], out => ([], out)
  | t :: rest, out =>
    let oc := processTable env t
    let next := runTables env rest
      (match oc with
       | .merged rows => writeTable out t rows
       | _ => out)
    ((t, oc) :: next.1, next.2)

/-- Observable result of one run of merge_databases: the exit code when
sys.exit fired, an exception the function let escape, whether the three
sqlite3 connections were ever opened and whether the three close() calls at
the end of the function ran, the per-table outcomes in order, and the state
of the output database (empty before the run). -/
structure RunResult where
  exitCode : Option Nat
  uncaught : Option String
  connsOpened : Bool
  connsClosed : Bool
  outcomes : List (String × TableOutcome)
  output : List (String × List Row)
deriving DecidableEq, Repr

/-- Embedding of merge_databases(priority, fallback, output): path checks
with sys.exit(1) first, then the three connects, then the sqlite_master
query (whose failure escapes the function: the close() calls sit after the
loop with no try/finally around them), then the loop, then the closes. -/
def merge_databases (env : Env) : RunResult :=
  if env.priorityExists && env.fallbackExists then
    match env.listTables with
    | .error e =>
      { exitCode := none, uncaught := some e, connsOpened := true,
        connsClosed := false, outcomes := [], output := [] }
    | .ok ts =>
      let r := runTables env ts []
      { exitCode := none, uncaught := none, connsOpened := true,
        connsClosed := true, outcomes := r.1, output := r.2 }
  else
    { exitCode := some 1, uncaught := none, connsOpened := false,
      connsClosed := false, outcomes := [], output := [] }

theorem runTables_fst (env : Env) :
    ∀ (ts : List String) (out : List (String × List Row)),
      (runTables env ts out).1 = ts.map (fun t => (t, processTable env t))
  | [], _ => rfl
  | t :: rest, out => by
    simp only [runTables, List.map_cons, List.cons.injEq, true_and]
    exact runTables_fst env rest _

theorem writeTable_mem_fst (out : List (String × List Row)) (t u : String)
    (rows : List Row) (h : u ∈ (writeTable out t rows).map Prod.fst) :
    u ∈ out.map Prod.fst ∨ u = t := by
  unfold writeTable at h
  rw [List.map_append, List.mem_append] at h
  rcases h with h | h
  · rcases List.mem_map.mp h with ⟨p, hp, hpu⟩
    exact Or.inl (List.mem_map.mpr ⟨p, List.mem_of_mem_filter hp, hpu⟩)
  · simp at h
    exact Or.inr h

theorem runTables_not_mem_output (env : Env) (t : String)
    (h : ∀ rows, processTable env t ≠ .merged rows) :
    ∀ (ts : List String) (out : List (String × List Row)),
      t ∉ out.map Prod.fst → t ∉ ((runTables env ts out).2).map Prod.fst
  | [], _, hout => hout
  | u :: rest, out, hout => by
    simp only [runTables]
    rcases hu : processTable env u with rows | _ | _ | msg
    all_goals simp only
    · refine runTables_not_mem_output env t h rest _ ?_
      intro hmem
      rcases writeTable_mem_fst out u t rows hmem with hmem | htu
      · exact hout hmem
      · exact h rows (htu ▸ hu)
    · exact runTables_not_mem_output env t h rest out hout
    · exact runTables_not_mem_output env t h rest out hout
    · exact runTables_not_mem_output env t h rest out hout

/-- C4: with both source paths present and the table enumeration
succeeding, every enumerated table is attempted exactly once and its
outcome — a caught error included — is recorded in order; no exception
escapes the function and no per-table failure ends the run early. -/
theorem merge_databases_attempts_all (env : Env) (ts : List String)
    (hp : env.priorityExists = true) (hf : env.fallbackExists = true)
    (hl : env.listTables = .ok ts) :
    (merge_databases env).outcomes = ts.map (fun t => (t, processTable env t))
    ∧ (∀ t ∈ ts, (t, processTable env t) ∈ (merge_databases env).outcomes)
    ∧ (merge_databases env).uncaught = none
    ∧ (merge_databases env).exitCode = none := by
  have hout : merge_databases env
      = { exitCode := none, uncaught := none, connsOpened := true,
          connsClosed := true, outcomes := (runTables env ts []).1,
          output := (runTables env ts []).2 } := by
    unfold merge_databases
    rw [hp, hf, hl]
    rfl
  rw [hout]
  refine ⟨runTables_fst env ts [], ?_, rfl, rfl⟩
  intro t ht
  rw [runTables_fst env ts []]
  exact List.mem_map_of_mem _ ht

/-- C6: when either source path is missing, the run exits with code 1
before opening any connection or doing any table work, and the output
database stays empty. -/
theorem merge_databases_aborts (env : Env)
    (h : env.priorityExists = false ∨ env.fallbackExists = false) :
    merge_databases env
      = { exitCode := some 1, uncaught := none, connsOpened := false,
          connsClosed := false, outcomes := [], output := [] } := by
  unfold merge_databases
  rcases h with h | h <;> simp [h]

/-- C7: a table whose two sides disagree on the column-name set (compared
as sets) yields the schema-mismatch outcome, the run still completes with
no escaping exception, and no table of that name reaches the output. -/
theorem schema_mismatch_skips (env : Env) (t : String)
    (dfp dff : DataFrame)
    (hrp : env.readPriority t = .ok dfp) (hrf : env.readFallback t = .ok dff)
    (hne : dfp.cols.toFinset ≠ dff.cols.toFinset) :
    processTable env t = .schemaMismatch
    ∧ (∀ ts, env.priorityExists = true → env.fallbackExists = true →
        env.listTables = .ok ts →
        (merge_databases env).uncaught = none
        ∧ t ∉ (merge_databases env).output.map Prod.fst) := by
  have hskip : processTable env t = .schemaMismatch := by
    unfold processTable
    rw [hrp, hrf]
    simp [hne]
  refine ⟨hskip, ?_⟩
  intro ts hp hf hl
  have hout : merge_databases env
      = { exitCode := none, uncaught := none, connsOpened := true,
          connsClosed := true, outcomes := (runTables env ts []).1,
          output := (runTables env ts []).2 } := by
    unfold merge_databases
    rw [hp, hf, hl]
    rfl
  rw [hout]
  refine ⟨rfl, ?_⟩
  exact runTables_not_mem_output env t
    (fun rows hmerged => by rw [hskip] at hmerged; cases hmerged) ts [] (by simp)

/-- C9: a table with no declared primary key whose lowercased name is
"matches" is not skipped: when the table carries the configured columns
"key" and "team_key" (the real matches table does), the merge runs with
the hard-coded key columns ["key", "team_key"]; any other table with no
declared primary key takes the missing-key skip and no table of that name
reaches the output. -/
theorem missing_key_special_case (env : Env) (t : String)
    (dfp dff : DataFrame)
    (hrp : env.readPriority t = .ok dfp) (hrf : env.readFallback t = .ok dff)
    (hcols : dfp.cols.toFinset = dff.cols.toFinset)
    (hpk : get_primary_keys (env.tableInfo t) = []) :
    (pyLower t = "matches" → (∀ c ∈ ["key", "team_key"], c ∈ dfp.cols) →
      env.writeFault t = none →
      processTable env t
        = .merged (merge_tables_by_key dfp.cols ["key", "team_key"]
            dfp.rows dff.rows))
    ∧ (pyLower t ≠ "matches" →
        processTable env t = .missingKey
        ∧ ∀ ts, env.priorityExists = true → env.fallbackExists = true →
            env.listTables = .ok ts →
            t ∉ (merge_databases env).output.map Prod.fst) := by
  constructor
  · intro hlow hkeys hw
    simp only [processTable, hrp, hrf]
    rw [if_neg (by simp [hcols])]
    unfold resolveKeys
    rw [hpk, hlow, hw]
    simp [hkeys]
  · intro hlow
    have hskip : processTable env t = .missingKey := by
      simp only [processTable, hrp, hrf]
      rw [if_neg (by simp [hcols])]
      unfold resolveKeys
      rw [hpk]
      simp [hlow]
    refine ⟨hskip, ?_⟩
    intro ts hp hf hl
    have hout : merge_databases env
        = { exitCode := none, uncaught := none, connsOpened := true,
            connsClosed := true, outcomes := (runTables env ts []).1,
            output := (runTables env ts []).2 } := by
      unfold merge_databases
      rw [hp, hf, hl]
      rfl
    rw [hout]
    exact runTables_not_mem_output env t
      (fun rows hmerged => by rw [hskip] at hmerged; cases hmerged) ts []
      (by simp)

/-- C10: the special-case name test lowercases the table name first, so it
is case-insensitive: any no-primary-key table whose lowercased name is
"matches" — "Matches" and "MATCHES" included — and which carries the
configured columns "key" and "team_key" is merged with the key columns
["key", "team_key"] rather than skipped. -/
theorem special_case_case_insensitive (env : Env) (t : String)
    (dfp dff : DataFrame)
    (hrp : env.readPriority t = .ok dfp) (hrf : env.readFallback t = .ok dff)
    (hcols : dfp.cols.toFinset = dff.cols.toFinset)
    (hpk : get_primary_keys (env.tableInfo t) = [])
    (hlow : pyLower t = "matches")
    (hkeys : ∀ c ∈ ["key", "team_key"], c ∈ dfp.cols)
    (hw : env.writeFault t = none) :
    processTable env t
      = .merged (merge_tables_by_key dfp.cols ["key", "team_key"]
          dfp.rows dff.rows) := by
  simp only [processTable, hrp, hrf]
  rw [if_neg (by simp [hcols])]
  unfold resolveKeys
  rw [hpk, hlow, hw]
  simp [hkeys]

/-- C5 as amended: the three connections are never opened on the early-abort
path, and the close() calls do run whenever table enumeration succeeds; but
when the sqlite_master query raises, the exception escapes and the already
opened connections are never closed — cleanup is not guaranteed on every
exit path. -/
theorem merge_databases_cleanup (env : Env) :
    ((env.priorityExists = false ∨ env.fallbackExists = false) →
      (merge_databases env).connsOpened = false)
    ∧ (∀ ts, env.priorityExists = true → env.fallbackExists = true →
        env.listTables = .ok ts → (merge_databases env).connsClosed = true)
    ∧ (∀ e, env.priorityExists = true → env.fallbackExists = true →
        env.listTables = .error e →
        (merge_databases env).connsOpened = true
        ∧ (merge_databases env).connsClosed = false) := by
  refine ⟨?_, ?_, ?_⟩
  · intro h
    unfold merge_databases
    rcases h with h | h <;> simp [h]
  · intro ts hp hf hl
    unfold merge_databases
    rw [hp, hf, hl]
    rfl
  · intro e hp hf hl
    unfold merge_databases
    rw [hp, hf, hl]
    exact ⟨rfl, rfl⟩

/-- A world in which both sources exist but the sqlite_master enumeration
query raises: the run then ends with the connections open. -/
def envListFails : Env :=
  { priorityExists := true, fallbackExists := true,
    listTables := .error "database disk image is malformed",
    readPriority := fun _ => .error "unused",
    readFallback := fun _ => .error "unused",
    tableInfo := fun _ => [],
    writeFault := fun _ => none }

/-- C5 as stated is false: on the exit path where table enumeration raises,
the three connections were opened and the close() calls never run. -/
theorem merge_databases_leaks_on_list_error :
    (merge_databases envListFails).connsOpened = true
    ∧ (merge_databases envListFails).connsClosed = false :=
  ⟨rfl, rfl⟩

/-- Priority rows of a matches-style table keyed by (key, team_key). -/
def matchesPrio : List Row :=
  [[("key", some 10), ("team_key", some 1), ("score", none)]]

/-- Fallback rows of the matches-style table. -/
def matchesFall : List Row :=
  [[("key", some 10), ("team_key", some 1), ("score", some 99)],
   [("key", some 10), ("team_key", some 2), ("score", some 50)]]

/-- A concrete healthy world: a keyed users table, two no-primary-key tables
hitting the special case under two spellings, a schema-mismatch table, a
no-primary-key table outside the special case, and a table whose reads
raise. -/
def demoEnv : Env :=
  { priorityExists := true, fallbackExists := true,
    listTables := .ok ["users", "Matches", "MATCHES", "mismatch", "nokey",
      "broken"],
    readPriority := fun t =>
      if t = "users" then .ok ⟨usersCols, usersPrio⟩
      else if t = "Matches" ∨ t = "MATCHES" then
        .ok ⟨["key", "team_key", "score"], matchesPrio⟩
      else if t = "mismatch" then .ok ⟨["a", "b"], []⟩
      else if t = "nokey" then .ok ⟨["a"], []⟩
      else .error "no such table",
    readFallback := fun t =>
      if t = "users" then .ok ⟨usersCols, usersFall⟩
      else if t = "Matches" ∨ t = "MATCHES" then
        .ok ⟨["key", "team_key", "score"], matchesFall⟩
      else if t = "mismatch" then .ok ⟨["a", "b", "c"], []⟩
      else if t = "nokey" then .ok ⟨["a"], []⟩
      else .error "no such table",
    tableInfo := fun t =>
      if t = "users" then [⟨"id", 1⟩, ⟨"name", 0⟩, ⟨"email", 0⟩]
      else if t = "Matches" ∨ t = "MATCHES" then
        [⟨"key", 0⟩, ⟨"team_key", 0⟩, ⟨"score", 0⟩]
      else [⟨"a", 0⟩],
    writeFault := fun _ => none }

/-- A world whose priority source path is missing. -/
def envMissing : Env :=
  { priorityExists := false, fallbackExists := true,
    listTables := .ok [], readPriority := fun _ => .error "unused",
    readFallback := fun _ => .error "unused", tableInfo := fun _ => [],
    writeFault := fun _ => none }

theorem merge_databases_attempts_all_witness :
    (merge_databases demoEnv).outcomes
      = ["users", "Matches", "MATCHES", "mismatch", "nokey", "broken"].map
          (fun t => (t, processTable demoEnv t))
    ∧ (merge_databases demoEnv).uncaught = none
    ∧ (merge_databases demoEnv).exitCode = none :=
  ⟨(merge_databases_attempts_all demoEnv _ rfl rfl rfl).1,
   (merge_databases_attempts_all demoEnv _ rfl rfl rfl).2.2.1,
   (merge_databases_attempts_all demoEnv _ rfl rfl rfl).2.2.2⟩

theorem merge_databases_aborts_witness :
    merge_databases envMissing
      = { exitCode := some 1, uncaught := none, connsOpened := false,
          connsClosed := false, outcomes := [], output := [] } :=
  merge_databases_aborts envMissing (Or.inl rfl)

theorem schema_mismatch_skips_witness :
    processTable demoEnv "mismatch" = .schemaMismatch
    ∧ (merge_databases demoEnv).uncaught = none
    ∧ "mismatch" ∉ (merge_databases demoEnv).output.map Prod.fst :=
  ⟨(schema_mismatch_skips demoEnv "mismatch" ⟨["a", "b"], []⟩
      ⟨["a", "b", "c"], []⟩ rfl rfl (by decide)).1,
   ((schema_mismatch_skips demoEnv "mismatch" ⟨["a", "b"], []⟩
      ⟨["a", "b", "c"], []⟩ rfl rfl (by decide)).2
     _ rfl rfl rfl).1,
   ((schema_mismatch_skips demoEnv "mismatch" ⟨["a", "b"], []⟩
      ⟨["a", "b", "c"], []⟩ rfl rfl (by decide)).2
     _ rfl rfl rfl).2⟩

theorem missing_key_special_case_witness :
    processTable demoEnv "Matches"
      = .merged (merge_tables_by_key ["key", "team_key", "score"]
          ["key", "team_key"] matchesPrio matchesFall)
    ∧ processTable demoEnv "nokey" = .missingKey
    ∧ "nokey" ∉ (merge_databases demoEnv).output.map Prod.fst :=
  ⟨(missing_key_special_case demoEnv "Matches"
      ⟨["key", "team_key", "score"], matchesPrio⟩
      ⟨["key", "team_key", "score"], matchesFall⟩
      rfl rfl (by decide) (by decide)).1 (by decide) (by decide) rfl,
   ((missing_key_special_case demoEnv "nokey" ⟨["a"], []⟩ ⟨["a"], []⟩
      rfl rfl (by decide) (by decide)).2 (by decide)).1,
   ((missing_key_special_case demoEnv "nokey" ⟨["a"], []⟩ ⟨["a"], []⟩
      rfl rfl (by decide) (by decide)).2 (by decide)).2
     _ rfl rfl rfl⟩

theorem special_case_case_insensitive_witness :
    processTable demoEnv "MATCHES"
      = .merged (merge_tables_by_key ["key", "team_key", "score"]
          ["key", "team_key"] matchesPrio matchesFall) :=
  special_case_case_insensitive demoEnv "MATCHES"
    ⟨["key", "team_key", "score"], matchesPrio⟩
    ⟨["key", "team_key", "score"], matchesFall⟩
    rfl rfl (by decide) (by decide) (by decide) (by decide) rfl

theorem merge_databases_cleanup_witness :
    (merge_databases demoEnv).connsClosed = true
    ∧ (merge_databases envMissing).connsOpened = false
    ∧ (merge_databases envListFails).connsOpened = true
      ∧ (merge_databases envListFails).connsClosed = false :=
  ⟨(merge_databases_cleanup demoEnv).2.1 _ rfl rfl rfl,
   (merge_databases_cleanup envMissing).1 (Or.inl rfl),
   (merge_databases_cleanup envListFails).2.2 _ rfl rfl rfl⟩
